import Mathlib

set_option maxRecDepth 10000

/-!
# Verification of the best-image pipeline

A shallow embedding of the `best-image` library (image extraction, scoring,
validation and selection for web pages) and proofs about it.

Conventions of the embedding:

* JavaScript numbers are modelled by `ℚ` (the code never relies on float
  rounding for the properties studied here).
* JavaScript strings are `String`; character-level work (lower-casing,
  `indexOf`, `lastIndexOf`, `slice`) is done on `List Char` with functions
  that mirror the JavaScript semantics, including `slice`'s handling of
  negative indices and `lastIndexOf` returning `-1`.
* A JS field that can be `undefined` or a string is modelled as `String`
  with `""` playing the role of every falsy value, except where the code
  distinguishes presence (`"content" in attribs`), which uses `Option`.
* External collaborators (the `string-similarity` Dice coefficient, the
  node `url.parse` pathname, the WHATWG `new URL` validity check, the
  network fetch performed by `getImageSize`, `Math.log`, and a
  user-supplied scoring hook) are parameters collected in an `Env`
  structure; concrete theorems instantiate them with explicit functions
  whose values at the evaluated inputs agree with the real libraries.
-/

/-! ## JavaScript string primitives on `List Char` -/

/-- `needle` occurs at the start of `hay` (JS `String.startsWith`). -/
def startsWithL : List Char → List Char → Bool
  | _, [] => true
  | [], _ :: _ => false
  | a :: as, b :: bs => a == b && startsWithL as bs

/-- JS `hay.indexOf(needle) >= 0`: `needle` occurs somewhere in `hay`. -/
def containsSubL : List Char → List Char → Bool
  | [], needle => needle.isEmpty
  | a :: t, needle => startsWithL (a :: t) needle || containsSubL t needle

/-- JS `hay.lastIndexOf(needle)`: the largest index at which `needle`
occurs, or `-1`.  For the empty needle this is `hay.length`, as in JS. -/
def lastIndexOfL : List Char → List Char → Int
  | [], needle => if needle.isEmpty then 0 else -1
  | a :: t, needle =>
    let r := lastIndexOfL t needle
    if r ≥ 0 then r + 1
    else if startsWithL (a :: t) needle then 0 else -1

/-- Convert a JS slice index to a position in a list of length `len`:
negative indices count from the end and everything is clamped to
`[0, len]`. -/
def jsIdx (len : Nat) (i : Int) : Nat :=
  if i < 0 then ((len : Int) + i).toNat else min i.toNat len

/-- JS `s.slice(a, b)` on a character list. -/
def jsSliceL (l : List Char) (a b : Int) : List Char :=
  (l.take (jsIdx l.length b)).drop (jsIdx l.length a)

/-- JS `s.slice(a)` on a character list. -/
def jsSliceFromL (l : List Char) (a : Int) : List Char :=
  jsSliceL l a (l.length : Int)

/-- JS `s.toLowerCase()` (the inputs of interest are ASCII). -/
def lowerL (l : List Char) : List Char := l.map Char.toLower

/-- JS `s.trim()` on a character list. -/
def jsTrimL (l : List Char) : List Char :=
  ((l.dropWhile Char.isWhitespace).reverse.dropWhile Char.isWhitespace).reverse

/-- A JS `\w` word character. -/
def wordCharB (c : Char) : Bool := c.isAlpha || c.isDigit || c == '_'

/-! ## The scoring configuration (`imageScore.js`, `SCORE_CONFIG`) -/

structure ScoreFactors where
  imgTitle : ℚ
  imgSrc : ℚ
  imgFname : ℚ
deriving DecidableEq

structure SizeConfig where
  idealWidth : ℚ
  idealHeight : ℚ
  ratioWeight : ℚ
  smallerWeight : ℚ
  largerWeight : ℚ
deriving DecidableEq

structure ScoreConfig where
  isMeta : ℚ
  isSVG : ℚ
  isJPG : ℚ
  isGIF : ℚ
  isPNG : ℚ
  docTitleFactors : ScoreFactors
  queryFactors : ScoreFactors
  goodWordMatch : ℚ
  badWordMatch : ℚ
  badWordMatchFname : ℚ
  size : SizeConfig
  goodWords : List String
  badWords : List String
  badFilenames : List String

/-- The default `SCORE_CONFIG` table of `imageScore.js`. -/
def SCORE_CONFIG : ScoreConfig where
  isMeta := 10
  isSVG := 1/2
  isJPG := 1/2
  isGIF := 1/2
  isPNG := 1/2
  docTitleFactors := { imgTitle := 1, imgSrc := 1, imgFname := 1 }
  queryFactors := { imgTitle := 6, imgSrc := 6, imgFname := 6 }
  goodWordMatch := 3/10
  badWordMatch := -2
  badWordMatchFname := -2
  size := { idealWidth := 200, idealHeight := 100, ratioWeight := 35/100,
            smallerWeight := 7, largerWeight := 25/100 }
  goodWords := ["logo", "main"]
  badWords := ["spacer", "pixel", "email", "search", "button", "pageview", "phone", "call",
    "amazonlogo", "contact", "favicon", "blank", "question", "placeholder", "bbb", "sprite",
    "spinner", "reviews", "clear", "signup", "rss", "border"]
  badFilenames := ["spacer", "pixel", "amazon", "ebay", "btn", "bot", "up", "twitter",
    "facebook", "pinterest", "youtube", "gplus", "google", "favicon",
    "paypal", "mastercard", "visa", "phone", "email", "call", "border",
    "submit", "sprite", "spinner", "1x1", "clear", "signup", "rss", "arrow"]

/-! ## Data model -/

/-- The result object a validation callback receives (`checkImageUrl.js`):
`loaded` plus optional pixel dimensions. -/
structure ImgResult where
  loaded : Bool := false
  width : Option Nat := none
  height : Option Nat := none
deriving DecidableEq

/-- One image candidate as flattened by `docImageParse.extractImages` and
scored by `imageScore.js`.  `""` stands for an absent (undefined) string
field; `cssClass` is the source's `class` attribute (a Lean keyword). -/
structure ImageCandidate where
  src : String := ""
  title : String := ""
  alt : String := ""
  cssClass : String := ""
  docTitle : String := ""
  query : String := ""
  isMeta : Bool := false
  score : ℚ := 0
  sizeScore : ℚ := 0
  dimensions : Option ImgResult := none
deriving DecidableEq

/-- The score a candidate receives together with the breakdown fields the
code stores on the object (`titleScore`, `queryScore`, `goodWords`,
`badWords`, `badFnameWords`). -/
structure ScoreParts where
  score : ℚ
  titleScore : ℚ
  queryScore : ℚ
  goodWords : ℚ
  badWords : ℚ
  badFnameWords : ℚ
deriving DecidableEq

/-- The external collaborators of the pipeline, kept abstract:
`sim` is `stringSimilarity.compareTwoStrings`, `pathname` is
`url.parse(·).pathname`, `isURL` is success of WHATWG `new URL(·)`,
`fetch` is the outcome `getImageSize` reports over the network
(`none` = error), `rlog` is `Math.log`, `userSizeFn` is the effect of a
user-supplied scoring hook on an array, and `testEnv` is
`process.env.NODE_ENV === "test"`. -/
structure Env where
  sim : String → String → ℚ
  pathname : String → Option String
  isURL : String → Bool
  fetch : String → Option ImgResult
  rlog : ℚ → ℚ := fun _ => 0
  userSizeFn : List ImageCandidate → List ImageCandidate := id
  testEnv : Bool := false

/-! ## `imageScore.js` -/

/-- `isValidSrcTag` of `imageScore.js`. -/
def isValidSrcTag (src : String) : Bool :=
  if src = "" then false
  else if startsWithL src.toList "data:".toList then true
  else if (jsTrimL src.toList).length > 0 then true
  else false

/-- Whether `text` contains one of the configured good words
(case-insensitive substring), the condition inside `checkGoodWords`. -/
def goodWordHit (text : String) : Bool :=
  SCORE_CONFIG.goodWords.any fun w => containsSubL (lowerL text.toList) w.toList

/-- `checkGoodWords` of `imageScore.js`. -/
def checkGoodWords (text : String) : ℚ :=
  if text = "" then 0
  else if goodWordHit text then SCORE_CONFIG.goodWordMatch else 0

/-- Whether `text` contains one of the configured bad words, the condition
inside `checkBadWords`. -/
def badWordHit (text : String) : Bool :=
  SCORE_CONFIG.badWords.any fun w => containsSubL (lowerL text.toList) w.toList

/-- `checkBadWords` of `imageScore.js` (no falsy guard in the source). -/
def checkBadWords (text : String) : ℚ :=
  if badWordHit text then SCORE_CONFIG.badWordMatch else 0

/-- The trailing filename the code slices out in `checkFilenameBadWords`:
`imgUrl.slice(imgUrl.lastIndexOf("/"))`. -/
def trailingFname (imgUrl : String) : List Char :=
  jsSliceFromL imgUrl.toList (lastIndexOfL imgUrl.toList ['/'])

/-- `checkFilenameBadWords` of `imageScore.js`. -/
def checkFilenameBadWords (obj : ImageCandidate) : ℚ :=
  if SCORE_CONFIG.badFilenames.any
      (fun w => containsSubL (lowerL (trailingFname obj.src)) w.toList) then
    SCORE_CONFIG.badWordMatchFname
  else 0

/-- `hasExtension` of `imageScore.js`, including the JS quirk that
`lastIndexOf` returning `-1` still satisfies
`loc + ext.length === file.length` when the file is one character shorter
than the extension. -/
def hasExtension (file : String) (extArray : List String) : Bool :=
  extArray.any fun e =>
    let ext := if startsWithL e.toList ['.'] then e.toList else '.' :: e.toList
    lastIndexOfL file.toList ext + (ext.length : Int) = (file.toList.length : Int)

/-- `getExtensionScore` of `imageScore.js`. -/
def getExtensionScore (imgUrl : String) : ℚ :=
  if startsWithL imgUrl.toList "data:image".toList then SCORE_CONFIG.isSVG
  else if hasExtension imgUrl ["ashx", "jpg", "jpeg"] then SCORE_CONFIG.isJPG
  else if hasExtension imgUrl ["gif"] then SCORE_CONFIG.isGIF
  else if hasExtension imgUrl ["png"] then SCORE_CONFIG.isPNG
  else 0

/-- `getTitleScore` of `imageScore.js`: similarity of the image's title
(or alt, or path) and of its filename with the given document
title/query. -/
def getTitleScore (env : Env) (obj : ImageCandidate) (title : String)
    (factors : ScoreFactors) : ℚ :=
  let fp : List Char × List Char :=
    match env.pathname obj.src with
    | some p =>
      if p ≠ "" then
        (jsSliceFromL p.toList (lastIndexOfL p.toList ['/']),
         jsSliceL p.toList 0 (lastIndexOfL p.toList ['/']))
      else ([], [])
    | none => ([], [])
  let fname := String.mk fp.1
  let prePath := String.mk fp.2
  let addScore :=
    if obj.title ≠ "" then factors.imgTitle * env.sim obj.title title
    else if obj.alt ≠ "" then factors.imgTitle * env.sim obj.alt title
    else factors.imgSrc * env.sim prePath title
  addScore + factors.imgFname * env.sim fname title

/-- `preferenceScore` of `imageScore.js`, returning the final score and
the breakdown fields the code stores on the object.  `isSVG` is the
source's `imgUrl.indexOf("data:image") >= 0` (containment, not prefix). -/
def preferenceScore (env : Env) (obj : ImageCandidate) : ScoreParts :=
  let isSVG := containsSubL obj.src.toList "data:image".toList
  let titleScore :=
    if isSVG = false ∧ obj.docTitle ≠ "" then
      getTitleScore env obj obj.docTitle SCORE_CONFIG.docTitleFactors
    else 0
  let queryScore :=
    if isSVG = false ∧ obj.query ≠ "" then
      getTitleScore env obj obj.query SCORE_CONFIG.queryFactors
    else 0
  let metaBonus : ℚ := if obj.isMeta then SCORE_CONFIG.isMeta else 0
  let goodWords :=
    (if isSVG = false then checkGoodWords obj.src else 0)
      + checkGoodWords obj.cssClass + checkGoodWords obj.title
  let badWords := if isSVG = false then checkBadWords obj.src else 0
  let badFnameWords := checkFilenameBadWords obj
  { score := titleScore + queryScore + metaBonus + goodWords + badWords
      + badFnameWords + getExtensionScore obj.src
    titleScore := titleScore
    queryScore := queryScore
    goodWords := goodWords
    badWords := badWords
    badFnameWords := badFnameWords }

/-- Stable insertion (descending by `score`) used to model the stable
`Array.prototype.sort` with comparator `(a, b) => b.score - a.score`:
for a consistent comparator the stable sorted permutation is unique, so
any stable sort gives the array the engine produces. -/
def insertByScore (c : ImageCandidate) : List ImageCandidate → List ImageCandidate
  | [] => [c]
  | x :: xs => if x.score < c.score then c :: x :: xs else x :: insertByScore c xs

/-- Stable sort, descending by `score` (see `insertByScore`). -/
def sortByScoreDesc (l : List ImageCandidate) : List ImageCandidate :=
  l.foldl (fun acc c => insertByScore c acc) []

/-- The running maximum `normalizeScores` computes, starting from the
sentinel `-999999` as in the source. -/
def normMax (arr : List ImageCandidate) : ℚ :=
  arr.foldl (fun m c => max m c.score) (-999999)

/-- `normalizeScores` of `imageScore.js`: divide every score by the
running maximum. -/
def normalizeScores (arr : List ImageCandidate) : List ImageCandidate :=
  arr.map fun c => { c with score := c.score / normMax arr }

/-- `findBestImages` of `imageScore.js`.  The optional hook models the
user scoring function mutating the array (it is re-sorted and
re-normalized afterwards, as in the source). -/
def findBestImages (env : Env) (imgArray : List ImageCandidate)
    (scoreFn : Option (List ImageCandidate → List ImageCandidate)) :
    List ImageCandidate :=
  let scored := imgArray.map fun c =>
    { c with score := if isValidSrcTag c.src then (preferenceScore env c).score else 0 }
  let sorted := sortByScoreDesc scored
  let normed := normalizeScores sorted
  match scoreFn with
  | none => normed
  | some f => normalizeScores (sortByScoreDesc (f normed))

/-- `sizeScore` of `imageScore.js` (a dimension-quality score); `Math.log`
is the environment's `rlog`. -/
def sizeScore (env : Env) (imgObj : ImageCandidate) : ℚ :=
  match imgObj.dimensions with
  | none => 0
  | some d =>
    match d.width, d.height with
    | some w, some h =>
      if w = 0 ∨ h = 0 then 0
      else
        let x : ℚ := w
        let y : ℚ := h
        let idealR := SCORE_CONFIG.size.idealWidth / SCORE_CONFIG.size.idealHeight
        let r := x / (y + 1/1000)
        let rdiff := |idealR - r| * SCORE_CONFIG.size.ratioWeight
        let surfaceArea := x * y
        let sdiffRaw := surfaceArea - SCORE_CONFIG.size.idealWidth * SCORE_CONFIG.size.idealHeight
        let sdiff :=
          if sdiffRaw > 0 then env.rlog |sdiffRaw| * (1/100) * SCORE_CONFIG.size.largerWeight
          else if sdiffRaw < 0 then env.rlog |sdiffRaw| * (1/100) * SCORE_CONFIG.size.smallerWeight
          else sdiffRaw
        1 - (rdiff + sdiff)
    | _, _ => 0

/-- `consolidateAndSizeRank` of `imageScore.js`: drop the null
placeholders, then stamp each survivor with its `sizeScore`. -/
def consolidateAndSizeRank (env : Env) (imgArray : List (Option ImageCandidate)) :
    List ImageCandidate :=
  (imgArray.filterMap id).map fun c => { c with sizeScore := sizeScore env c }

/-- `adjustScoresWithSize` of `imageScore.js`: fold the size score into
the score, normalize, re-sort descending. -/
def adjustScoresWithSize (newArray : List ImageCandidate) : List ImageCandidate :=
  sortByScoreDesc (normalizeScores (newArray.map fun c =>
    { c with score := c.score + c.sizeScore }))

/-! ## `checkImageUrl.js` -/

/-- The gate regex of `checkImageUrl`:
`/^https?\:\/\/\w\S+\.\S+$/i`.  A string matches iff (case-insensitively)
it starts with `http://` or `https://` and the remainder is a word
character followed by at least one non-space character, a literal dot and
at least one more non-space character, with no whitespace anywhere. -/
def httpUrlTest (s : String) : Bool :=
  let l := s.toList
  let rest : Option (List Char) :=
    if startsWithL (lowerL l) "http://".toList then some (l.drop 7)
    else if startsWithL (lowerL l) "https://".toList then some (l.drop 8)
    else none
  match rest with
  | none => false
  | some [] => false
  | some (c :: t) =>
    wordCharB c && (c :: t).all (fun x => !x.isWhitespace)
      && ((t.drop 1).dropLast.contains '.')

/-- `_checkImageUrl` of `checkImageUrl.js` for one request: the value the
callback is invoked with (`none` = invoked with an error).  Data URIs are
accepted without touching the network; in test mode the network is
replaced by a faux success except for the literal `"testnull.jpg"`;
otherwise the `getImageSize` outcome is the environment's `fetch`. -/
def checkImageUrlInner (env : Env) (imgUrl : String) : Option ImgResult :=
  if startsWithL imgUrl.toList "data:".toList then
    some { loaded := true, width := some 200, height := some 100 }
  else if env.testEnv then
    if imgUrl = "testnull.jpg" then none
    else some { loaded := true, width := some 200, height := some 100 }
  else
    env.fetch imgUrl

/-- The public `checkImageUrl` of `checkImageUrl.js` for a single request
(no concurrent request of the same URL pending in the callback-data-bus):
`none` means the function returns without ever invoking the callback
(invalid URL, or the `^https?://` gate regex does not match);
`some r` means the callback is invoked once with outcome `r`. -/
def checkImageUrlOutcome (env : Env) (imgUrl : String) : Option (Option ImgResult) :=
  if env.isURL imgUrl = false then none
  else if httpUrlTest imgUrl then some (checkImageUrlInner env imgUrl)
  else none

/-- Modelled from the spec: node's `url.resolve` (an external library the
resolver delegates to).  "Applies standard relative-URL resolution rules
(absolute refs pass through; scheme-relative refs inherit the base's
scheme; root-relative and path-relative refs resolve against base's
origin/path).  Empty string resolves to the base URL unchanged."
`schemeSplit` splits `scheme:` from the remainder when the string starts
with a scheme. -/
def schemeSplit (l : List Char) : Option (List Char × List Char) :=
  let sch := l.takeWhile fun c =>
    c.isAlpha || c.isDigit || c == '+' || c == '-' || c == '.'
  if sch.isEmpty then none
  else
    match l.drop sch.length with
    | ':' :: rest => some (sch ++ [':'], rest)
    | _ => none

/-- Modelled from the spec: the `scheme://host` origin of an absolute URL
(helper for `urlResolve`). -/
def originOf (l : List Char) : List Char :=
  match schemeSplit l with
  | some (sch, rest) =>
    if startsWithL rest "//".toList then
      let host := (rest.drop 2).takeWhile (· ≠ '/')
      sch ++ '/' :: '/' :: host
    else sch
  | none => []

/-- Modelled from the spec: the path part of an absolute URL (helper for
`urlResolve`). -/
def pathOf (l : List Char) : List Char :=
  match schemeSplit l with
  | some (_, rest) =>
    if startsWithL rest "//".toList then (rest.drop 2).dropWhile (· ≠ '/')
    else rest
  | none => l

/-- Modelled from the spec: node's `url.resolve(base, ref)` for the cases
the spec describes (absolute, scheme-relative, root-relative,
path-relative and empty references). -/
def urlResolve (base ref : String) : String :=
  let b := base.toList
  let r := ref.toList
  if r.isEmpty then base
  else if (schemeSplit r).isSome then ref
  else if startsWithL r "//".toList then
    match schemeSplit b with
    | some (sch, _) => String.mk (sch ++ r)
    | none => ref
  else if startsWithL r "/".toList then String.mk (originOf b ++ r)
  else
    let dir := (pathOf b).take ((lastIndexOfL (pathOf b) ['/']).toNat)
    String.mk (originOf b ++ dir ++ '/' :: r)

/-- `resolveRelativeUrl` of `checkImageUrl.js` in its synchronous mode
(callback `null`): the source trims the image URL into `newImg` but then
overwrites it with `url.resolve(sourceUrl, imageUrl)` and returns it. -/
def resolveRelativeUrl (sourceUrl imageUrl : String) : String :=
  urlResolve sourceUrl imageUrl

/-! ## `docImageParse.js` -/

/-- The attribute object of a matched element (`attribs` in cheerio).
`content` uses `Option` because `getMetaImages` tests presence with
`"content" in nextObj.attribs`. -/
structure RawAttribs where
  src : String := ""
  title : String := ""
  cssClass : String := ""
  alt : String := ""
  content : Option String := none
deriving DecidableEq

/-- One raw image record before flattening (`{attribs, isMeta}`). -/
structure RawImg where
  attribs : RawAttribs := {}
  isMeta : Bool := false
deriving DecidableEq

/-- `getMetaImages` of `docImageParse.js` over the list of elements the
curated meta-tag query matched: nothing unless the first match has a
truthy `content` attribute; then the first match, plus the second match
when it has a `content` key (presence test), each with `src` set to its
`content` and `isMeta` true. -/
def getMetaImages (els : List RawAttribs) : List RawImg :=
  match els with
  | [] => []
  | a0 :: rest =>
    match a0.content with
    | none => []
    | some c0 =>
      if c0 = "" then []
      else
        let o1 : RawImg := { attribs := { a0 with src := c0 }, isMeta := true }
        match rest with
        | [] => [o1]
        | a1 :: _ =>
          match a1.content with
          | none => [o1]
          | some c1 => [o1, { attribs := { a1 with src := c1 }, isMeta := true }]

/-- The flat candidate `extractImages` builds from one raw record. -/
def flattenOne (title query : String) (o : RawImg) : ImageCandidate :=
  { src := o.attribs.src, title := o.attribs.title, cssClass := o.attribs.cssClass,
    alt := o.attribs.alt, docTitle := title, query := query, isMeta := o.isMeta }

/-- The flatten-and-dedupe pass of `extractImages` in `docImageParse.js`:
walk the concatenated raw records, keep a record only if its `src` was
not seen before (`imgCheck`), and flatten it with the document title and
query. -/
def extractFlatten (title query : String) (imgs : List RawImg) : List ImageCandidate :=
  (imgs.foldl
    (fun (st : List String × List ImageCandidate) o =>
      if st.1.contains o.attribs.src then st
      else (o.attribs.src :: st.1, st.2 ++ [flattenOne title query o]))
    ([], [])).2

/-! ## `best-image.js` -/

/-- One upsert into the JS object `deDupeImageArray` builds: string keys
keep insertion order, re-assignment replaces the value in place.  (The
model assumes the `src` keys are not array indices, which JS would
iterate first; the pipeline's keys are URLs.) -/
def upsertSrc (m : List ImageCandidate) (c : ImageCandidate) : List ImageCandidate :=
  match m with
  | [] => [c]
  | x :: xs => if x.src = c.src then c :: xs else x :: upsertSrc xs c

/-- `deDupeImageArray` of `best-image.js`: `obj[img.src] = img` over the
array, then collect the values in key order. -/
def deDupeImageArray (imgArray : List ImageCandidate) : List ImageCandidate :=
  imgArray.foldl upsertSrc []

/-- `FIND_BLOCK_SIZE` of `best-image.js`. -/
def FIND_BLOCK_SIZE : Nat := 10

/-- The dynamically-typed values `findValidImage` passes around.  Its
recursive call drops an argument, so parameters receive values of the
wrong runtime type; this small universe captures the ones that can
occur: `null`/`undefined`, a string (the page URL), a candidate array,
and a function (`fn id arity` — `id` identifies which function, `arity`
is its `.length`). -/
inductive JVal where
  | null
  | undefVal
  | str (s : String)
  | arr (xs : List ImageCandidate)
  | fn (id : Nat) (arity : Nat)
deriving DecidableEq

/-- How one call of `findValidImage` terminates: the callback value is
invoked with an error or a winning src, a `TypeError` is thrown, the
call hangs (an inner callback is never invoked, so the `async` join
never fires), or the model's fuel ran out. -/
inductive FVIOut where
  | cbErr (fnId : Nat) (msg : String)
  | cbOk (fnId : Nat) (src : String)
  | typeErr (msg : String)
  | hang
  | outOfFuel
deriving DecidableEq

/-- Invoke the value standing in the callback position. -/
def jcallErr (cback : JVal) (msg : String) : FVIOut :=
  match cback with
  | .fn i _ => .cbErr i msg
  | _ => .typeErr "cback is not a function"

/-- Invoke the value standing in the callback position with a result. -/
def jcallOk (cback : JVal) (src : String) : FVIOut :=
  match cback with
  | .fn i _ => .cbOk i src
  | _ => .typeErr "cback is not a function"

/-- `callSizingFunction` of `imageScore.js` as invoked by
`findValidImage` with whatever value sits in its `scoreFn` parameter:
a truthy non-function value makes the call `scoreFn(...)` throw. -/
def callSizingFunctionJ (env : Env) (scoreFn : JVal) (newArray : List ImageCandidate) :
    Except String (List ImageCandidate) :=
  match scoreFn with
  | .null | .undefVal => .ok (adjustScoresWithSize newArray)
  | .fn _ _ => .ok (adjustScoresWithSize (env.userSizeFn newArray))
  | .str s =>
    if s = "" then .ok (adjustScoresWithSize newArray)
    else .error "scoreFn is not a function"
  | .arr _ => .error "scoreFn is not a function"

/-- `findValidImage` of `best-image.js`, including the slip in its
recursive call, which passes only three arguments —
`findValidImage(fullImgArray.slice(end), scoreFn, cback)` — so the
remaining candidates land in the `fullUrl` parameter, `fullImgArray`
receives the score function, `scoreFn` the callback and `cback`
`undefined`.  Reading `.length` of `null`/`undefined` and slicing a
function throw `TypeError`s; iterating a non-empty string hands
characters (with no `src`) to `checkImageUrl`, which never calls back.
Fuel only bounds the recursion depth of the model. -/
def findValidImage (env : Env) : Nat → JVal → JVal → JVal → JVal → FVIOut
  | 0, _, _, _, _ => .outOfFuel
  | _ + 1, _, .null, _, _ =>
    .typeErr "Cannot read properties of null (reading 'length')"
  | _ + 1, _, .undefVal, _, _ =>
    .typeErr "Cannot read properties of undefined (reading 'length')"
  | _ + 1, _, .str s, _, cback =>
    if s.length = 0 then jcallErr cback "No valid image found" else .hang
  | _ + 1, _, .fn _ arity, _, cback =>
    if arity = 0 then jcallErr cback "No valid image found"
    else .typeErr "fullImgArray.slice is not a function"
  | fuel + 1, _fullUrl, .arr xs, scoreFn, cback =>
    if xs.isEmpty then jcallErr cback "No valid image found"
    else
      let e := min FIND_BLOCK_SIZE xs.length
      let batch := xs.take e
      if batch.any (fun c => (checkImageUrlOutcome env c.src).isNone) then .hang
      else
        let validated : List (Option ImageCandidate) := batch.map fun c =>
          match checkImageUrlOutcome env c.src with
          | some (some d) => some { c with dimensions := some d }
          | _ => none
        match callSizingFunctionJ env scoreFn (consolidateAndSizeRank env validated) with
        | .error m => .typeErr m
        | .ok newArray =>
          match newArray with
          | best :: _ => jcallOk cback best.src
          | [] => findValidImage env fuel (.arr (xs.drop e)) scoreFn cback .undefVal

/-! ## The `getImageSize` event machine (`checkImageUrl.js`)

`getImageSize` registers handlers for overlapping transport events and
guards its callback with the `keyStore` (`enterKey`/`updateKey`/
`exitKey`).  The machine below runs an arbitrary sequence of those events
for one request, starting right after `enterKey`: `hasKey` is whether the
request's key is still in the store, `cbs` the list of values the
completion callback has been invoked with (`none` = an error argument),
and `crashed` records an exception thrown by `updateKey` on a missing
key.  The `endEv` payload classifies what the externally-decoded buffer
yields at end-of-stream: usable dimensions, a sizing exception, an
unrecognized signature in the existence-only path, or a type mismatch. -/

inductive EndRes where
  | okDims (r : ImgResult)
  | sizeThrow
  | badType
  | typeMismatch (t : String)
deriving DecidableEq

inductive GEvent where
  | response
  | data
  | endEv (res : EndRes)
  | readErr
  | connErr
  | timeoutEv
deriving DecidableEq

structure GState where
  hasKey : Bool := true
  cbs : List (Option ImgResult) := []
  crashed : Bool := false
deriving DecidableEq

/-- One transport event, as handled by `getImageSize`, `processData` and
`processFileEnd`.  Every path is guarded by `exitKey` except the
unrecognized-signature path of `processFileEnd`, which calls `exitKey`
but ignores its result and invokes the callback unconditionally. -/
def gStep (st : GState) (ev : GEvent) : GState :=
  if st.crashed then st
  else
    match ev with
    | .response => if st.hasKey then st else { st with crashed := true }
    | .data => if st.hasKey then st else { st with crashed := true }
    | .endEv res =>
      match res with
      | .okDims r =>
        if st.hasKey then { st with hasKey := false, cbs := st.cbs ++ [some r] } else st
      | .sizeThrow =>
        if st.hasKey then
          { st with hasKey := false,
                    cbs := st.cbs ++ [some { loaded := true, width := some 10, height := some 10 }] }
        else st
      | .badType =>
        { st with hasKey := false, cbs := st.cbs ++ [none] }
      | .typeMismatch _ =>
        if st.hasKey then { st with hasKey := false, cbs := st.cbs ++ [none] } else st
    | .readErr =>
      if st.hasKey then { st with hasKey := false, cbs := st.cbs ++ [none] } else st
    | .connErr =>
      if st.hasKey then { st with hasKey := false, cbs := st.cbs ++ [none] } else st
    | .timeoutEv =>
      if st.hasKey then { st with hasKey := false, cbs := st.cbs ++ [none] } else st

/-- Run a sequence of transport events for one request, starting just
after `enterKey`. -/
def runImageSizeEvents (evts : List GEvent) : GState :=
  evts.foldl gStep {}

/-! ## Concrete instances used by the evaluation theorems

The environments fix the external collaborators with explicit functions.
Where an evaluation depends on their values (`sim`, `pathname`), the
chosen values agree with the real libraries at every input the
evaluation asks about: the Dice coefficient of two identical strings is
1 and of two strings sharing no bigram is 0, and the `pathname` entries
are exactly what `url.parse` yields for those URLs. -/

/-- An environment whose network always fails and whose similarity is
identically zero (no evaluation below consults `sim` or `pathname`
through it). -/
def envNull : Env :=
  { sim := (fun _ _ => 0), pathname := (fun _ => none),
    isURL := (fun _ => true), fetch := (fun _ => none) }

/-- Environment for the C4 counterexample (see the section comment for
why these values are the real libraries' values). -/
def envQuery : Env :=
  { sim := (fun a b => if a = "abab" ∧ b = "abab" then 1 else 0),
    pathname := (fun s =>
      if s = "http://x.com/z.foo" then some "/z.foo"
      else if s = "http://x.com/spacer/spacer.foo" then some "/spacer/spacer.foo"
      else if s = "http://x.com/spacer/spacer2.foo" then some "/spacer/spacer2.foo"
      else none),
    isURL := (fun _ => true), fetch := (fun _ => none) }

/-- Environment whose fetch succeeds only for one specific URL. -/
def envFetchOk : Env :=
  { sim := (fun _ _ => 0), pathname := (fun _ => none),
    isURL := (fun _ => true),
    fetch := (fun s =>
      if s = "http://ok.ok/valid.jpg" then
        some { loaded := true, width := some 300, height := some 200 }
      else none) }

/-- A curated (meta) candidate whose address contains the bad word
`spacer` in both path and filename. -/
def metaSpacer1 : ImageCandidate :=
  { src := "http://x.com/spacer/spacer.foo", isMeta := true, query := "abab" }

/-- A second such meta candidate with a distinct address. -/
def metaSpacer2 : ImageCandidate :=
  { src := "http://x.com/spacer/spacer2.foo", isMeta := true, query := "abab" }

/-- A non-meta candidate whose title equals the query exactly and whose
class contains the good word `logo`. -/
def queryImage : ImageCandidate :=
  { src := "http://x.com/z.foo", title := "abab", cssClass := "logo", query := "abab" }

/-- Two plain meta candidates for witnesses. -/
def metaPlainA : ImageCandidate := { src := "http://m.m/a.b", isMeta := true }

def metaPlainB : ImageCandidate := { src := "http://m.m/b.b", isMeta := true }

/-- The baseline address of the repository's own `preferenceScore` tests
with the three extensions of claim C5. -/
def trJpg : ImageCandidate := { src := "http://www.ask.com/assets/images/tire-repair.jpg" }

def trGif : ImageCandidate := { src := "http://www.ask.com/assets/images/tire-repair.gif" }

def trPng : ImageCandidate := { src := "http://www.ask.com/assets/images/tire-repair.png" }

/-- A candidate whose address passes the validator's URL gate but whose
fetch fails. -/
def candHttp : ImageCandidate := { src := "http://ab.cd/img.jpg" }

/-- A candidate whose fetch succeeds under `envFetchOk`. -/
def candOk : ImageCandidate := { src := "http://ok.ok/valid.jpg" }

/-- Two candidates sharing one `src` with different titles. -/
def dupFirst : ImageCandidate := { src := "http://d.d/a.jpg", title := "first" }

def dupSecond : ImageCandidate := { src := "http://d.d/a.jpg", title := "second" }

/-- Two scored candidates for the normalization witness. -/
def scoredA : ImageCandidate := { src := "http://s.s/a", score := 2 }

def scoredB : ImageCandidate := { src := "http://s.s/b", score := 1 }

/-! ## Helper lemmas: the stable sort -/

theorem mem_insertByScore {x c : ImageCandidate} {l : List ImageCandidate} :
    x ∈ insertByScore c l ↔ x = c ∨ x ∈ l := by
  induction l with
  | nil => simp [insertByScore]
  | cons a t ih =>
    simp only [insertByScore]
    split
    · simp
    · simp only [List.mem_cons, ih]
      tauto

theorem pairwise_insertByScore {c : ImageCandidate} {l : List ImageCandidate}
    (hl : l.Pairwise fun a b => b.score ≤ a.score) :
    (insertByScore c l).Pairwise fun a b => b.score ≤ a.score := by
  induction l with
  | nil => simp [insertByScore]
  | cons a t ih =>
    rw [List.pairwise_cons] at hl
    simp only [insertByScore]
    split
    · rename_i hlt
      refine List.Pairwise.cons ?_ (List.Pairwise.cons hl.1 hl.2)
      intro x hx
      rcases List.mem_cons.mp hx with rfl | hx
      · exact le_of_lt hlt
      · exact le_trans (hl.1 x hx) (le_of_lt hlt)
    · rename_i hge
      refine List.Pairwise.cons ?_ (ih hl.2)
      intro x hx
      rcases mem_insertByScore.mp hx with rfl | hx
      · exact le_of_not_lt hge
      · exact hl.1 x hx

theorem mem_sortFold {x : ImageCandidate} :
    ∀ (l acc : List ImageCandidate),
      x ∈ l.foldl (fun acc c => insertByScore c acc) acc ↔ x ∈ acc ∨ x ∈ l := by
  intro l
  induction l with
  | nil => simp
  | cons a t ih =>
    intro acc
    simp only [List.foldl_cons, ih, mem_insertByScore, List.mem_cons]
    tauto

theorem pairwise_sortFold :
    ∀ (l acc : List ImageCandidate),
      acc.Pairwise (fun a b => b.score ≤ a.score) →
      (l.foldl (fun acc c => insertByScore c acc) acc).Pairwise fun a b => b.score ≤ a.score := by
  intro l
  induction l with
  | nil => intro acc h; simpa using h
  | cons a t ih =>
    intro acc h
    exact ih _ (pairwise_insertByScore h)

theorem mem_sortByScoreDesc {x : ImageCandidate} {l : List ImageCandidate} :
    x ∈ sortByScoreDesc l ↔ x ∈ l := by
  simp [sortByScoreDesc, mem_sortFold]

theorem pairwise_sortByScoreDesc (l : List ImageCandidate) :
    (sortByScoreDesc l).Pairwise fun a b => b.score ≤ a.score :=
  pairwise_sortFold l [] (List.Pairwise.nil)

/-! ## Helper lemmas: the running maximum of `normalizeScores` -/

theorem init_le_foldlMax :
    ∀ (l : List ImageCandidate) (init : ℚ),
      init ≤ l.foldl (fun m c => max m c.score) init := by
  intro l
  induction l with
  | nil => intro init; simp
  | cons a t ih =>
    intro init
    exact le_trans (le_max_left _ _) (ih (max init a.score))

theorem mem_le_foldlMax {c : ImageCandidate} :
    ∀ (l : List ImageCandidate) (init : ℚ), c ∈ l →
      c.score ≤ l.foldl (fun m c => max m c.score) init := by
  intro l
  induction l with
  | nil => intro _ h; simp at h
  | cons a t ih =>
    intro init h
    rcases List.mem_cons.mp h with rfl | h
    · exact le_trans (le_max_right init c.score) (init_le_foldlMax t _)
    · exact ih _ h

theorem foldlMax_cases :
    ∀ (l : List ImageCandidate) (init : ℚ),
      l.foldl (fun m c => max m c.score) init = init ∨
      ∃ c ∈ l, l.foldl (fun m c => max m c.score) init = c.score := by
  intro l
  induction l with
  | nil => intro init; left; rfl
  | cons a t ih =>
    intro init
    rw [List.foldl_cons]
    rcases ih (max init a.score) with h | ⟨c, hc, h⟩
    · rcases max_cases init a.score with ⟨h', _⟩ | ⟨h', _⟩
      · left; rw [h, h']
      · right; exact ⟨a, List.mem_cons_self a t, by rw [h, h']⟩
    · right; exact ⟨c, List.mem_cons_of_mem a hc, h⟩

theorem le_normMax {c : ImageCandidate} {arr : List ImageCandidate} (h : c ∈ arr) :
    c.score ≤ normMax arr :=
  mem_le_foldlMax arr _ h

theorem normMax_cases (arr : List ImageCandidate) :
    normMax arr = -999999 ∨ ∃ c ∈ arr, normMax arr = c.score :=
  foldlMax_cases arr _

theorem normMax_pos {arr : List ImageCandidate}
    (h : ∃ c ∈ arr, 0 < c.score) : 0 < normMax arr := by
  obtain ⟨c, hc, hpos⟩ := h
  exact lt_of_lt_of_le hpos (le_normMax hc)

/-! ## Helper lemmas: bounds of the scoring components under the default
configuration -/

theorem checkGoodWords_bounds (t : String) :
    0 ≤ checkGoodWords t ∧ checkGoodWords t ≤ 3/10 := by
  unfold checkGoodWords
  split
  · norm_num
  · split <;> norm_num [SCORE_CONFIG]

theorem checkBadWords_bounds (t : String) :
    -2 ≤ checkBadWords t ∧ checkBadWords t ≤ 0 := by
  unfold checkBadWords
  split <;> norm_num [SCORE_CONFIG]

theorem checkFilenameBadWords_bounds (c : ImageCandidate) :
    -2 ≤ checkFilenameBadWords c ∧ checkFilenameBadWords c ≤ 0 := by
  unfold checkFilenameBadWords
  split <;> norm_num [SCORE_CONFIG]

theorem getExtensionScore_bounds (s : String) :
    0 ≤ getExtensionScore s ∧ getExtensionScore s ≤ 1/2 := by
  unfold getExtensionScore
  split
  · norm_num [SCORE_CONFIG]
  · split
    · norm_num [SCORE_CONFIG]
    · split
      · norm_num [SCORE_CONFIG]
      · split <;> norm_num [SCORE_CONFIG]

/-- Under the default configuration's docTitle factor set (all weights
1), the title-similarity term lies in [0, 2] whenever the similarity
collaborator is [0, 1]-bounded, as its contract states. -/
theorem getTitleScore_docTitle_bounds (env : Env) (obj : ImageCandidate) (t : String)
    (hsim : ∀ a b, 0 ≤ env.sim a b ∧ env.sim a b ≤ 1) :
    0 ≤ getTitleScore env obj t SCORE_CONFIG.docTitleFactors
    ∧ getTitleScore env obj t SCORE_CONFIG.docTitleFactors ≤ 2 := by
  have key : ∀ x y : ℚ, 0 ≤ x → x ≤ 1 → 0 ≤ y → y ≤ 1 →
      0 ≤ 1 * x + 1 * y ∧ 1 * x + 1 * y ≤ 2 := by
    intro x y h1 h2 h3 h4
    constructor <;> linarith
  simp only [getTitleScore, SCORE_CONFIG]
  rcases hp : env.pathname obj.src with _ | p <;>
    simp only [hp] <;>
    split_ifs <;>
    exact key _ _ (hsim _ _).1 (hsim _ _).2 (hsim _ _).1 (hsim _ _).2

/-- The `titleScore` breakdown field is in [0, 2] for a [0, 1]-bounded
similarity collaborator (it is either 0 or a docTitle-factor title
score). -/
theorem preferenceScore_titleScore_bounds (env : Env) (c : ImageCandidate)
    (hsim : ∀ a b, 0 ≤ env.sim a b ∧ env.sim a b ≤ 1) :
    0 ≤ (preferenceScore env c).titleScore ∧ (preferenceScore env c).titleScore ≤ 2 := by
  simp only [preferenceScore]
  split
  · exact getTitleScore_docTitle_bounds env c c.docTitle hsim
  · norm_num

/-- With an empty query the query-similarity term vanishes and a
candidate's preference score is its title-similarity term plus the meta
bonus and the word and extension adjustments. -/
theorem preferenceScore_no_query (env : Env) (c : ImageCandidate)
    (hq : c.query = "") :
    (preferenceScore env c).score =
      (preferenceScore env c).titleScore
      + (if c.isMeta then (10 : ℚ) else 0)
      + ((if containsSubL c.src.toList "data:image".toList = false then checkGoodWords c.src else 0)
          + checkGoodWords c.cssClass + checkGoodWords c.title)
      + (if containsSubL c.src.toList "data:image".toList = false then checkBadWords c.src else 0)
      + checkFilenameBadWords c + getExtensionScore c.src := by
  simp only [preferenceScore, hq, ne_eq, not_true_eq_false, and_false, if_false, SCORE_CONFIG]
  ring

/-- A meta candidate with an empty query scores at least 6 (for a
[0, 1]-bounded similarity collaborator), whatever its document title. -/
theorem preferenceScore_meta_lower (env : Env) (c : ImageCandidate)
    (hsim : ∀ a b, 0 ≤ env.sim a b ∧ env.sim a b ≤ 1)
    (hq : c.query = "") (hm : c.isMeta = true) :
    6 ≤ (preferenceScore env c).score := by
  rw [preferenceScore_no_query env c hq, if_pos hm]
  have ht := preferenceScore_titleScore_bounds env c hsim
  have h1 := checkGoodWords_bounds c.src
  have h2 := checkGoodWords_bounds c.cssClass
  have h3 := checkGoodWords_bounds c.title
  have h4 := checkBadWords_bounds c.src
  have h5 := checkFilenameBadWords_bounds c
  have h6 := getExtensionScore_bounds c.src
  split <;> linarith

/-- A non-meta candidate with an empty query scores at most 17/5 (for a
[0, 1]-bounded similarity collaborator), whatever its document title:
at most 2 from docTitle similarity, 0.9 from good words and 0.5 from
the extension bonus. -/
theorem preferenceScore_nonmeta_upper (env : Env) (c : ImageCandidate)
    (hsim : ∀ a b, 0 ≤ env.sim a b ∧ env.sim a b ≤ 1)
    (hq : c.query = "") (hm : c.isMeta = false) :
    (preferenceScore env c).score ≤ 17/5 := by
  rw [preferenceScore_no_query env c hq,
    if_neg (by rw [hm]; exact Bool.false_ne_true)]
  have ht := preferenceScore_titleScore_bounds env c hsim
  have h1 := checkGoodWords_bounds c.src
  have h2 := checkGoodWords_bounds c.cssClass
  have h3 := checkGoodWords_bounds c.title
  have h4 := checkBadWords_bounds c.src
  have h5 := checkFilenameBadWords_bounds c
  have h6 := getExtensionScore_bounds c.src
  split <;> linarith

/-! ## Claim C4 -/

/-- C4 (amended): when every candidate carries an empty query, every
meta candidate has a valid `src`, and the string-similarity collaborator
is [0, 1]-bounded as its contract states, `findBestImages` with no user
scoring hook places every meta candidate (isMeta = true) ahead of every
non-meta candidate in the returned sorted order, for all values of the
other candidates' titles, classes, addresses and of the document title —
a non-meta candidate caps at 2 (docTitle similarity) + 0.9 (good words)
+ 0.5 (extension) = 3.4, below the meta floor 10 − 2 − 2 = 6.  For a
non-empty query the claim as stated fails, see the counterexample. -/
theorem findBestImages_meta_first (env : Env) (arr : List ImageCandidate)
    (hsim : ∀ a b, 0 ≤ env.sim a b ∧ env.sim a b ≤ 1)
    (hq : ∀ c ∈ arr, c.query = "")
    (hms : ∀ c ∈ arr, c.isMeta = true → isValidSrcTag c.src = true) :
    ∀ (i j : Nat) (ci cj : ImageCandidate), i ≤ j →
      (findBestImages env arr none)[i]? = some ci →
      (findBestImages env arr none)[j]? = some cj →
      cj.isMeta = true → ci.isMeta = true := by
  intro i j ci cj hij hci hcj hmj
  rw [List.getElem?_eq_some_iff] at hci hcj
  obtain ⟨hi, hci⟩ := hci
  obtain ⟨hj, hcj⟩ := hcj
  subst hci
  subst hcj
  by_contra hmi
  rw [Bool.not_eq_true] at hmi
  have hmap : findBestImages env arr none =
      (sortByScoreDesc (arr.map (fun c =>
        { c with score := if isValidSrcTag c.src then (preferenceScore env c).score else 0 }))).map
        (fun c => { c with score := c.score / normMax (sortByScoreDesc (arr.map (fun c =>
          { c with score := if isValidSrcTag c.src then (preferenceScore env c).score else 0 }))) }) := rfl
  set scored := arr.map (fun c =>
    { c with score := if isValidSrcTag c.src then (preferenceScore env c).score else 0 })
    with hscored
  set L := sortByScoreDesc scored with hL
  have hiL : i < L.length := by
    have := hi; rw [hmap] at this; simpa using this
  have hjL : j < L.length := by
    have := hj; rw [hmap] at this; simpa using this
  have hgi : ((findBestImages env arr none)[i]).isMeta = (L[i]).isMeta := by
    simp only [hmap, List.getElem_map]
  have hgj : ((findBestImages env arr none)[j]).isMeta = (L[j]).isMeta := by
    simp only [hmap, List.getElem_map]
  rw [hgi] at hmi
  rw [hgj] at hmj
  have hbounds : ∀ x ∈ L,
      (x.isMeta = true → 6 ≤ x.score) ∧ (x.isMeta = false → x.score ≤ 17/5) := by
    intro x hx
    have hx' : x ∈ scored := mem_sortByScoreDesc.mp hx
    obtain ⟨c, hc, rfl⟩ := List.mem_map.mp hx'
    simp only
    constructor
    · intro hmeta
      rw [if_pos (hms c hc hmeta)]
      exact preferenceScore_meta_lower env c hsim (hq c hc) hmeta
    · intro hnm
      split
      · exact preferenceScore_nonmeta_upper env c hsim (hq c hc) hnm
      · norm_num
  have hij' : i < j := by
    rcases Nat.lt_or_ge i j with h | h
    · exact h
    · exfalso
      have heq : i = j := le_antisymm hij h
      subst heq
      rw [hmi] at hmj
      exact Bool.false_ne_true hmj
  have hpw := pairwise_sortByScoreDesc scored
  have hscore : (L[j]).score ≤ (L[i]).score :=
    List.pairwise_iff_getElem.mp hpw i j hiL hjL hij'
  have h6 : 6 ≤ (L[j]).score := (hbounds _ (List.getElem_mem hjL)).1 hmj
  have h34 : (L[i]).score ≤ 17/5 := (hbounds _ (List.getElem_mem hiL)).2 hmi
  linarith

/-- C4 (counterexample): with a non-empty query, a document carrying both
an og:image and a twitter:image meta candidate does NOT always rank them
above every non-meta candidate: a non-meta candidate whose title equals
the query (query weight 6) and whose class holds a good word outscores
meta candidates whose addresses hit the bad-word and bad-filename
penalties (10 − 2 − 2 = 6 < 6.3), so `findBestImages` puts the non-meta
candidate first. -/
theorem findBestImages_query_beats_meta :
    (findBestImages envQuery [metaSpacer1, metaSpacer2, queryImage] none).map
      (fun c => c.isMeta) = [false, true, true] := by
  simp +decide [findBestImages, preferenceScore, checkGoodWords, checkBadWords,
    checkFilenameBadWords, getExtensionScore, getTitleScore, goodWordHit, badWordHit,
    SCORE_CONFIG, envQuery, metaSpacer1, metaSpacer2, queryImage, isValidSrcTag,
    sortByScoreDesc, insertByScore, normalizeScores, normMax]
  norm_num

/-- C4 (witness): the amended theorem applied to a concrete two-element
all-meta list. -/
theorem findBestImages_meta_first_witness :
    ∃ ci, (findBestImages envNull [metaPlainA, metaPlainB] none)[0]? = some ci
      ∧ ci.isMeta = true := by
  have hev0 : (findBestImages envNull [metaPlainA, metaPlainB] none)[0]?
      = some { metaPlainA with score := 1 } := by
    simp +decide [findBestImages, preferenceScore, checkGoodWords, checkBadWords,
      checkFilenameBadWords, getExtensionScore, getTitleScore, goodWordHit, badWordHit,
      SCORE_CONFIG, envNull, metaPlainA, metaPlainB, isValidSrcTag,
      sortByScoreDesc, insertByScore, normalizeScores, normMax]
    norm_num
  have hev1 : (findBestImages envNull [metaPlainA, metaPlainB] none)[1]?
      = some { metaPlainB with score := 1 } := by
    simp +decide [findBestImages, preferenceScore, checkGoodWords, checkBadWords,
      checkFilenameBadWords, getExtensionScore, getTitleScore, goodWordHit, badWordHit,
      SCORE_CONFIG, envNull, metaPlainA, metaPlainB, isValidSrcTag,
      sortByScoreDesc, insertByScore, normalizeScores, normMax]
    norm_num
  refine ⟨{ metaPlainA with score := 1 }, hev0, ?_⟩
  exact findBestImages_meta_first envNull [metaPlainA, metaPlainB]
    (by intro a b; constructor <;> norm_num [envNull])
    (by
      intro c hc
      simp only [List.mem_cons, List.not_mem_nil, or_false] at hc
      rcases hc with rfl | rfl <;> rfl)
    (by
      intro c hc _hm
      simp only [List.mem_cons, List.not_mem_nil, or_false] at hc
      rcases hc with rfl | rfl <;> decide)
    0 1 _ _ (by norm_num) hev0 hev1 (by rfl)

/-! ## Claim C7 -/

/-- C7: for every array of scored candidates in which at least one score
is strictly positive, `normalizeScores` divides each score by the
pre-normalization maximum (the fold the code computes, which under the
hypothesis is the true maximum of the scores), and afterwards the
maximum score equals 1: some candidate reaches exactly 1 and every
candidate is at most 1. -/
theorem normalizeScores_spec (arr : List ImageCandidate)
    (h : ∃ c ∈ arr, 0 < c.score) :
    (normalizeScores arr).map (fun c => c.score) = arr.map (fun c => c.score / normMax arr)
    ∧ (∀ c ∈ arr, c.score ≤ normMax arr)
    ∧ (∃ c ∈ arr, c.score = normMax arr)
    ∧ (∃ c ∈ normalizeScores arr, c.score = 1)
    ∧ (∀ c ∈ normalizeScores arr, c.score ≤ 1) := by
  have hpos := normMax_pos h
  have hmax : ∃ c ∈ arr, c.score = normMax arr := by
    rcases normMax_cases arr with h0 | ⟨c, hc, he⟩
    · exfalso; rw [h0] at hpos; norm_num at hpos
    · exact ⟨c, hc, he.symm⟩
  refine ⟨?_, fun c hc => le_normMax hc, hmax, ?_, ?_⟩
  · simp [normalizeScores]
  · obtain ⟨c, hc, he⟩ := hmax
    refine ⟨{ c with score := c.score / normMax arr }, List.mem_map.mpr ⟨c, hc, rfl⟩, ?_⟩
    simp only
    rw [he, div_self (ne_of_gt hpos)]
  · intro c hc
    obtain ⟨d, hd, rfl⟩ := List.mem_map.mp hc
    simp only
    exact (div_le_one hpos).mpr (le_normMax hd)

/-- C7 (witness): the normalization theorem applied to a concrete pair of
scored candidates. -/
theorem normalizeScores_spec_witness :
    ∃ c ∈ normalizeScores [scoredA, scoredB], c.score = 1 :=
  (normalizeScores_spec [scoredA, scoredB]
    ⟨scoredA, List.mem_cons_self _ _, by norm_num [scoredA]⟩).2.2.2.1

/-! ## Helper lemmas: `lastIndexOfL` and `hasExtension` -/

theorem startsWithL_refl (l : List Char) : startsWithL l l = true := by
  induction l with
  | nil => rfl
  | cons a t ih => simp [startsWithL, ih]

theorem startsWithL_length {hay e : List Char} (h : startsWithL hay e = true) :
    e.length ≤ hay.length := by
  induction e generalizing hay with
  | nil => simp
  | cons b bs ih =>
    cases hay with
    | nil => simp [startsWithL] at h
    | cons a t =>
      simp only [startsWithL, Bool.and_eq_true, beq_iff_eq] at h
      simpa using ih h.2

theorem lastIndexOfL_spec (hay e : List Char) (he : e ≠ []) :
    (lastIndexOfL hay e = -1 ∧ ∀ i : Nat, startsWithL (hay.drop i) e = false) ∨
    (∃ i : Nat, lastIndexOfL hay e = (i : Int) ∧ startsWithL (hay.drop i) e = true ∧
      ∀ j : Nat, i < j → startsWithL (hay.drop j) e = false) := by
  induction hay with
  | nil =>
    left
    constructor
    · simp [lastIndexOfL, List.isEmpty_iff, he]
    · intro i
      rcases e with _ | ⟨b, bs⟩
      · exact absurd rfl he
      · simp [startsWithL]
  | cons a t ih =>
    rcases ih with ⟨h1, h2⟩ | ⟨i, h1, h2, h3⟩
    · by_cases hs : startsWithL (a :: t) e = true
      · right
        refine ⟨0, ?_, by simpa using hs, ?_⟩
        · simp [lastIndexOfL, h1, hs]
        · intro j hj
          rcases j with _ | k
          · omega
          · simpa [List.drop_succ_cons] using h2 k
      · left
        constructor
        · simp only [lastIndexOfL, h1]
          norm_num
          simp [hs]
        · intro i
          rcases i with _ | k
          · simpa using hs
          · simpa [List.drop_succ_cons] using h2 k
    · right
      refine ⟨i + 1, ?_, ?_, ?_⟩
      · simp only [lastIndexOfL, h1]
        norm_num
      · simpa [List.drop_succ_cons] using h2
      · intro j hj
        rcases j with _ | k
        · omega
        · simpa [List.drop_succ_cons] using h3 k (by omega)

theorem lastIndexOfL_append_self (l e : List Char) (he : e ≠ []) :
    lastIndexOfL (l ++ e) e = (l.length : Int) := by
  have hocc : startsWithL ((l ++ e).drop l.length) e = true := by
    rw [List.drop_left]
    exact startsWithL_refl e
  rcases lastIndexOfL_spec (l ++ e) e he with ⟨_, h2⟩ | ⟨i, h1, h2, h3⟩
  · rw [h2 l.length] at hocc
    exact absurd hocc (by simp)
  · have hle : l.length ≤ i := by
      by_contra hlt
      push_neg at hlt
      rw [h3 l.length hlt] at hocc
      exact absurd hocc (by simp)
    have hge : i ≤ l.length := by
      have hb := startsWithL_length h2
      rw [List.length_drop, List.length_append] at hb
      have he' : 1 ≤ e.length := by
        rcases e with _ | _
        · exact absurd rfl he
        · simp
      omega
    rw [h1]
    congr 1
    omega

theorem hasExtCond_iff (file ext : List Char) (he : ext ≠ []) :
    (lastIndexOfL file ext + (ext.length : Int) = (file.length : Int)) ↔
    ((file.length : Int) = (ext.length : Int) - 1 ∨
     (ext.length ≤ file.length ∧
      startsWithL (file.drop (file.length - ext.length)) ext = true)) := by
  rcases lastIndexOfL_spec file ext he with ⟨h1, h2⟩ | ⟨i, h1, h2, h3⟩
  · rw [h1]
    constructor
    · intro h; left; omega
    · rintro (h | ⟨_, hocc⟩)
      · omega
      · rw [h2 (file.length - ext.length)] at hocc
        exact absurd hocc (by simp)
  · have hb := startsWithL_length h2
    rw [List.length_drop] at hb
    have he' : 1 ≤ ext.length := by
      rcases ext with _ | _
      · exact absurd rfl he
      · simp
    have hif : i + ext.length ≤ file.length := by omega
    rw [h1]
    constructor
    · intro h
      right
      refine ⟨by omega, ?_⟩
      have : file.length - ext.length = i := by omega
      rw [this]
      exact h2
    · rintro (h | ⟨hle, hocc⟩)
      · omega
      · have : file.length - ext.length ≤ i := by
          by_contra hlt
          push_neg at hlt
          rw [h3 _ hlt] at hocc
          exact absurd hocc (by simp)
        have h4 : i = file.length - ext.length := by omega
        omega

theorem toListAppend (a b : String) : (a ++ b).toList = a.toList ++ b.toList := by
  simp [String.toList]

theorem toList_ne_nil {s : String} (h : s ≠ "") : s.toList ≠ [] := by
  intro hl
  apply h
  cases s with
  | mk d =>
    simp [String.toList] at hl
    rw [hl]

theorem cond_of_suffix (s : String) (extL : List Char) (he : extL ≠ []) :
    lastIndexOfL (s.toList ++ extL) extL + (extL.length : Int)
      = ((s.toList ++ extL).length : Int) := by
  rw [lastIndexOfL_append_self _ _ he, List.length_append]
  omega

theorem cond_false_same_len (s : String) (tailL extL : List Char)
    (hne : s.toList ≠ []) (hlen : tailL.length = 4) (hlen2 : extL.length = 4)
    (he : extL ≠ []) (hsw : startsWithL tailL extL = false) :
    ¬(lastIndexOfL (s.toList ++ tailL) extL + (extL.length : Int)
        = ((s.toList ++ tailL).length : Int)) := by
  rw [hasExtCond_iff _ _ he]
  push_neg
  have hs1 : 0 < s.toList.length := List.length_pos.mpr hne
  constructor
  · rw [List.length_append]
    push_cast
    omega
  · intro _
    have hd : (s.toList ++ tailL).length - extL.length = s.toList.length := by
      rw [List.length_append]
      omega
    rw [hd, List.drop_left, hsw]
    simp

theorem cond_false_len5 (s : String) (tailL extL : List Char)
    (hne : s.toList ≠ []) (hlen : tailL.length = 4) (hlen2 : extL.length = 5)
    (he : extL ≠ []) (hsw : ∀ c, startsWithL (c :: tailL) extL = false) :
    ¬(lastIndexOfL (s.toList ++ tailL) extL + (extL.length : Int)
        = ((s.toList ++ tailL).length : Int)) := by
  rw [hasExtCond_iff _ _ he]
  push_neg
  have hs1 : 0 < s.toList.length := List.length_pos.mpr hne
  constructor
  · rw [List.length_append]
    push_cast
    omega
  · intro _
    have hd : (s.toList ++ tailL).length - extL.length = s.toList.length - 1 := by
      rw [List.length_append]
      omega
    rw [hd, List.drop_append_of_le_length (by omega)]
    have hone : (s.toList.drop (s.toList.length - 1)).length = 1 := by
      rw [List.length_drop]
      omega
    obtain ⟨c, hc⟩ := List.length_eq_one.mp hone
    rw [hc]
    simp only [List.singleton_append]
    rw [hsw c]
    simp

theorem hasExt_jpg_true (s : String) :
    hasExtension (s ++ ".jpg") ["ashx", "jpg", "jpeg"] = true := by
  have hfile : (s ++ ".jpg").toList = s.toList ++ ['.', 'j', 'p', 'g'] := by
    rw [toListAppend, show ".jpg".toList = ['.', 'j', 'p', 'g'] from by decide]
  simp only [hasExtension, List.any_eq_true]
  refine ⟨"jpg", by simp, ?_⟩
  simp only [decide_eq_true_eq]
  rw [show (if startsWithL "jpg".toList ['.'] then "jpg".toList else '.' :: "jpg".toList)
      = ['.', 'j', 'p', 'g'] from by decide]
  rw [hfile]
  have h := cond_of_suffix s ['.', 'j', 'p', 'g'] (by decide)
  simpa using h

theorem hasExt_jpgGroup_gif_false (s : String) (hne : s.toList ≠ []) :
    hasExtension (s ++ ".gif") ["ashx", "jpg", "jpeg"] = false := by
  have hfile : (s ++ ".gif").toList = s.toList ++ ['.', 'g', 'i', 'f'] := by
    rw [toListAppend, show ".gif".toList = ['.', 'g', 'i', 'f'] from by decide]
  simp only [hasExtension, List.any_eq_false]
  intro x hx
  simp only [List.mem_cons, List.not_mem_nil, or_false] at hx
  rcases hx with rfl | rfl | rfl
  · simp only [decide_eq_true_eq]
    rw [show (if startsWithL "ashx".toList ['.'] then "ashx".toList else '.' :: "ashx".toList)
        = ['.', 'a', 's', 'h', 'x'] from by decide, hfile]
    exact cond_false_len5 s _ _ hne (by decide) (by decide) (by decide)
      (by intro c; simp +decide [startsWithL])
  · simp only [decide_eq_true_eq]
    rw [show (if startsWithL "jpg".toList ['.'] then "jpg".toList else '.' :: "jpg".toList)
        = ['.', 'j', 'p', 'g'] from by decide, hfile]
    exact cond_false_same_len s _ _ hne (by decide) (by decide) (by decide) (by decide)
  · simp only [decide_eq_true_eq]
    rw [show (if startsWithL "jpeg".toList ['.'] then "jpeg".toList else '.' :: "jpeg".toList)
        = ['.', 'j', 'p', 'e', 'g'] from by decide, hfile]
    exact cond_false_len5 s _ _ hne (by decide) (by decide) (by decide)
      (by intro c; simp +decide [startsWithL])

theorem hasExt_gif_true (s : String) : hasExtension (s ++ ".gif") ["gif"] = true := by
  have hfile : (s ++ ".gif").toList = s.toList ++ ['.', 'g', 'i', 'f'] := by
    rw [toListAppend, show ".gif".toList = ['.', 'g', 'i', 'f'] from by decide]
  simp only [hasExtension, List.any_eq_true]
  refine ⟨"gif", by simp, ?_⟩
  simp only [decide_eq_true_eq]
  rw [show (if startsWithL "gif".toList ['.'] then "gif".toList else '.' :: "gif".toList)
      = ['.', 'g', 'i', 'f'] from by decide, hfile]
  have h := cond_of_suffix s ['.', 'g', 'i', 'f'] (by decide)
  simpa using h

theorem hasExt_jpgGroup_png_false (s : String) (hne : s.toList ≠ []) :
    hasExtension (s ++ ".png") ["ashx", "jpg", "jpeg"] = false := by
  have hfile : (s ++ ".png").toList = s.toList ++ ['.', 'p', 'n', 'g'] := by
    rw [toListAppend, show ".png".toList = ['.', 'p', 'n', 'g'] from by decide]
  simp only [hasExtension, List.any_eq_false]
  intro x hx
  simp only [List.mem_cons, List.not_mem_nil, or_false] at hx
  rcases hx with rfl | rfl | rfl
  · simp only [decide_eq_true_eq]
    rw [show (if startsWithL "ashx".toList ['.'] then "ashx".toList else '.' :: "ashx".toList)
        = ['.', 'a', 's', 'h', 'x'] from by decide, hfile]
    exact cond_false_len5 s _ _ hne (by decide) (by decide) (by decide)
      (by intro c; simp +decide [startsWithL])
  · simp only [decide_eq_true_eq]
    rw [show (if startsWithL "jpg".toList ['.'] then "jpg".toList else '.' :: "jpg".toList)
        = ['.', 'j', 'p', 'g'] from by decide, hfile]
    exact cond_false_same_len s _ _ hne (by decide) (by decide) (by decide) (by decide)
  · simp only [decide_eq_true_eq]
    rw [show (if startsWithL "jpeg".toList ['.'] then "jpeg".toList else '.' :: "jpeg".toList)
        = ['.', 'j', 'p', 'e', 'g'] from by decide, hfile]
    exact cond_false_len5 s _ _ hne (by decide) (by decide) (by decide)
      (by intro c; simp +decide [startsWithL])

theorem hasExt_gif_png_false (s : String) (hne : s.toList ≠ []) :
    hasExtension (s ++ ".png") ["gif"] = false := by
  have hfile : (s ++ ".png").toList = s.toList ++ ['.', 'p', 'n', 'g'] := by
    rw [toListAppend, show ".png".toList = ['.', 'p', 'n', 'g'] from by decide]
  simp only [hasExtension, List.any_eq_false]
  intro x hx
  simp only [List.mem_cons, List.not_mem_nil, or_false] at hx
  rcases hx with rfl
  simp only [decide_eq_true_eq]
  rw [show (if startsWithL "gif".toList ['.'] then "gif".toList else '.' :: "gif".toList)
      = ['.', 'g', 'i', 'f'] from by decide, hfile]
  exact cond_false_same_len s _ _ hne (by decide) (by decide) (by decide) (by decide)

theorem hasExt_png_true (s : String) : hasExtension (s ++ ".png") ["png"] = true := by
  have hfile : (s ++ ".png").toList = s.toList ++ ['.', 'p', 'n', 'g'] := by
    rw [toListAppend, show ".png".toList = ['.', 'p', 'n', 'g'] from by decide]
  simp only [hasExtension, List.any_eq_true]
  refine ⟨"png", by simp, ?_⟩
  simp only [decide_eq_true_eq]
  rw [show (if startsWithL "png".toList ['.'] then "png".toList else '.' :: "png".toList)
      = ['.', 'p', 'n', 'g'] from by decide, hfile]
  have h := cond_of_suffix s ['.', 'p', 'n', 'g'] (by decide)
  simpa using h

theorem getExtScore_three (s : String) (hs : s ≠ "")
    (h1 : startsWithL (s ++ ".jpg").toList "data:image".toList = false)
    (h2 : startsWithL (s ++ ".gif").toList "data:image".toList = false)
    (h3 : startsWithL (s ++ ".png").toList "data:image".toList = false) :
    getExtensionScore (s ++ ".jpg") = 1/2 ∧ getExtensionScore (s ++ ".gif") = 1/2
      ∧ getExtensionScore (s ++ ".png") = 1/2 := by
  have hne := toList_ne_nil hs
  refine ⟨?_, ?_, ?_⟩
  · rw [getExtensionScore, if_neg (by rw [h1]; exact Bool.false_ne_true),
      if_pos (hasExt_jpg_true s)]
    norm_num [SCORE_CONFIG]
  · rw [getExtensionScore, if_neg (by rw [h2]; exact Bool.false_ne_true),
      if_neg (by rw [hasExt_jpgGroup_gif_false s hne]; exact Bool.false_ne_true),
      if_pos (hasExt_gif_true s)]
    norm_num [SCORE_CONFIG]
  · rw [getExtensionScore, if_neg (by rw [h3]; exact Bool.false_ne_true),
      if_neg (by rw [hasExt_jpgGroup_png_false s hne]; exact Bool.false_ne_true),
      if_neg (by rw [hasExt_gif_png_false s hne]; exact Bool.false_ne_true),
      if_pos (hasExt_png_true s)]
    norm_num [SCORE_CONFIG]

/-! ## Claim C5 -/

/-- The three extension variants of the repository's own test baseline
all receive the same default preference score 1/2 (extension bonus only;
all other terms are zero on these inputs). -/
theorem trioPrefScores :
    (preferenceScore envNull trJpg).score = 1/2
    ∧ (preferenceScore envNull trGif).score = 1/2
    ∧ (preferenceScore envNull trPng).score = 1/2 := by
  refine ⟨?_, ?_, ?_⟩ <;>
  · simp +decide [preferenceScore, checkGoodWords, checkBadWords, checkFilenameBadWords,
      getExtensionScore, getTitleScore, goodWordHit, badWordHit, SCORE_CONFIG, envNull,
      trJpg, trGif, trPng]
    try norm_num

/-- C5 (counterexample): under the default scoring configuration a
`.jpg` candidate does NOT score strictly higher than the
otherwise-identical `.gif` candidate, nor `.gif` higher than `.png` —
the default bonuses `isJPG`, `isGIF`, `isPNG` are all 0.5, so the scores
are equal (the repository's test only obtains the strict ordering by
overriding the configuration). -/
theorem preferenceScore_ext_not_strict :
    ¬((preferenceScore envNull trJpg).score > (preferenceScore envNull trGif).score)
    ∧ ¬((preferenceScore envNull trGif).score > (preferenceScore envNull trPng).score) := by
  rw [trioPrefScores.1, trioPrefScores.2.1, trioPrefScores.2.2]
  norm_num

/-- C5 (amended): under the default scoring configuration an address
ending in `.jpg`, `.gif` or `.png` (not a data URI) receives the same
extension bonus 1/2, so two candidates identical except for one of these
extensions receive EQUAL scores, not strictly ordered ones; concretely,
the repository's test baseline address scores identically with all three
extensions. -/
theorem extensionScores_default_equal (s : String) (hs : s ≠ "")
    (h1 : startsWithL (s ++ ".jpg").toList "data:image".toList = false)
    (h2 : startsWithL (s ++ ".gif").toList "data:image".toList = false)
    (h3 : startsWithL (s ++ ".png").toList "data:image".toList = false) :
    (getExtensionScore (s ++ ".jpg") = 1/2 ∧ getExtensionScore (s ++ ".gif") = 1/2
      ∧ getExtensionScore (s ++ ".png") = 1/2)
    ∧ (preferenceScore envNull trJpg).score = (preferenceScore envNull trGif).score
    ∧ (preferenceScore envNull trGif).score = (preferenceScore envNull trPng).score := by
  refine ⟨getExtScore_three s hs h1 h2 h3, ?_, ?_⟩
  · rw [trioPrefScores.1, trioPrefScores.2.1]
  · rw [trioPrefScores.2.1, trioPrefScores.2.2]

/-- C5 (witness): the amended theorem applied at `s = "x"`. -/
theorem extensionScores_default_equal_witness :
    (getExtensionScore ("x" ++ ".jpg") = 1/2 ∧ getExtensionScore ("x" ++ ".gif") = 1/2
      ∧ getExtensionScore ("x" ++ ".png") = 1/2)
    ∧ (preferenceScore envNull trJpg).score = (preferenceScore envNull trGif).score
    ∧ (preferenceScore envNull trGif).score = (preferenceScore envNull trPng).score :=
  extensionScores_default_equal "x" (by decide) (by decide) (by decide) (by decide)

/-! ## Claim C1 -/

/-- C1 (evaluation at the failing input): when every candidate of the
first batch fails validation, `findValidImage` does not advance to the
remaining candidates or report "No valid image found": its recursive
call drops the `fullUrl` argument, so `fullImgArray` receives the `null`
score function and the call throws a `TypeError` reading `.length` —
both with no candidates remaining (first conjunct) and with an eleventh,
perfectly valid candidate waiting in the next batch (second conjunct).
The last two conjuncts check the non-recursive paths the claim gets
right: an empty array reports the error, and a batch with a survivor
returns its address. -/
theorem findValidImage_recursion_crash :
    findValidImage envNull 3 (.str "http://page.com")
        (.arr (List.replicate 10 candHttp)) .null (.fn 0 2)
      = .typeErr "Cannot read properties of null (reading 'length')"
    ∧ findValidImage envFetchOk 3 (.str "http://page.com")
        (.arr (List.replicate 10 candHttp ++ [candOk])) .null (.fn 0 2)
      = .typeErr "Cannot read properties of null (reading 'length')"
    ∧ findValidImage envNull 3 (.str "http://page.com") (.arr []) .null (.fn 0 2)
      = .cbErr 0 "No valid image found"
    ∧ findValidImage envFetchOk 3 (.str "http://page.com") (.arr [candOk]) .null (.fn 0 2)
      = .cbOk 0 "http://ok.ok/valid.jpg" := by
  refine ⟨by decide, by decide, by decide, by decide⟩

/-! ## Claim C2 -/

/-- C2 (evaluation at the failing input): for a data-URI address the
public `checkImageUrl` never invokes its callback — the address parses
as a URL but fails the `^https?://` gate regex, so the function returns
silently (first and third conjuncts, under two different environments) —
even though the internal `_checkImageUrl` it guards would accept the
same address unconditionally with a successful loaded result (second
conjunct). -/
theorem checkImageUrl_drops_data_uri :
    checkImageUrlOutcome envNull "data:image/svg+xml,<svg></svg>" = none
    ∧ checkImageUrlInner envNull "data:image/svg+xml,<svg></svg>"
        = some { loaded := true, width := some 200, height := some 100 }
    ∧ checkImageUrlOutcome envFetchOk "data:image/png;base64,AAAA" = none := by
  refine ⟨by decide, by decide, by decide⟩

/-! ## Claim C3 -/

/-- C3 (evaluation at the failing input): the completion callback of
`getImageSize` is NOT always invoked exactly once.  A timeout claims the
per-request key and invokes the callback; a subsequent end-of-stream
event whose buffer fails the image-signature check takes the
existence-only "bad image type" path, which calls `exitKey` but ignores
its result and invokes the callback unconditionally — two invocations
for one request (first two conjuncts).  On a well-behaved trace the
callback fires exactly once and a second terminal event is a no-op
(last two conjuncts). -/
theorem getImageSize_double_callback :
    (runImageSizeEvents [.response, .timeoutEv, .endEv .badType]).cbs.length = 2
    ∧ (runImageSizeEvents [.response, .timeoutEv, .endEv .badType]).cbs = [none, none]
    ∧ (runImageSizeEvents [.response, .data,
        .endEv (.okDims { loaded := true, width := some 5, height := some 5 })]).cbs.length = 1
    ∧ (runImageSizeEvents [.response, .timeoutEv,
        .endEv (.okDims { loaded := true, width := some 5, height := some 5 })]).cbs.length = 1 := by
  refine ⟨by decide, by decide, by decide, by decide⟩

/-! ## Claim C9 -/

/-- C9: the synchronous URL resolver satisfies the four specification
equations: a path-relative, a root-relative and a protocol-relative
reference against `http://a.com/p` all resolve to `http://a.com/x.jpg`,
and the empty reference resolves to the base URL unchanged.  (The
resolver delegates to node's `url.resolve`, modelled from the spec.) -/
theorem resolveRelativeUrl_equations :
    resolveRelativeUrl "http://a.com/p" "x.jpg" = "http://a.com/x.jpg"
    ∧ resolveRelativeUrl "http://a.com/p" "/x.jpg" = "http://a.com/x.jpg"
    ∧ resolveRelativeUrl "http://a.com/p" "//a.com/x.jpg" = "http://a.com/x.jpg"
    ∧ resolveRelativeUrl "http://a.com/p" "" = "http://a.com/p" := by
  refine ⟨by decide, by decide, by decide, by decide⟩

/-! ## Claim C10 -/

/-- C10: if the first element matched by the meta-tag query has no
`content` attribute, `getMetaImages` returns no candidates at all, even
when a later matched element does carry one; and whenever candidates are
returned there are at most two, each with `isMeta = true` and `src`
copied from its element's `content` attribute. -/
theorem getMetaImages_spec (els : List RawAttribs) :
    (∀ a0 rest, els = a0 :: rest → a0.content = none → getMetaImages els = [])
    ∧ (getMetaImages els).length ≤ 2
    ∧ ∀ o ∈ getMetaImages els, o.isMeta = true ∧ ∃ a ∈ els, a.content = some o.attribs.src := by
  refine ⟨?_, ?_, ?_⟩
  · intro a0 rest heq hnone
    subst heq
    simp [getMetaImages, hnone]
  · rcases els with _ | ⟨a0, rest⟩
    · simp [getMetaImages]
    · rcases h0 : a0.content with _ | c0
      · simp [getMetaImages, h0]
      · rcases rest with _ | ⟨a1, rest'⟩
        · by_cases hc : c0 = "" <;> simp [getMetaImages, h0, hc]
        · rcases h1 : a1.content with _ | c1 <;>
            by_cases hc : c0 = "" <;> simp [getMetaImages, h0, h1, hc]
  · intro o ho
    rcases els with _ | ⟨a0, rest⟩
    · simp [getMetaImages] at ho
    · rcases h0 : a0.content with _ | c0
      · simp [getMetaImages, h0] at ho
      · by_cases hc : c0 = ""
        · simp [getMetaImages, h0, hc] at ho
        · rcases rest with _ | ⟨a1, rest'⟩
          · simp [getMetaImages, h0, hc] at ho
            subst ho
            exact ⟨rfl, a0, List.mem_cons_self _ _, by simpa using h0⟩
          · rcases h1 : a1.content with _ | c1
            · simp [getMetaImages, h0, h1, hc] at ho
              subst ho
              exact ⟨rfl, a0, List.mem_cons_self _ _, by simpa using h0⟩
            · simp [getMetaImages, h0, h1, hc] at ho
              rcases ho with rfl | rfl
              · exact ⟨rfl, a0, List.mem_cons_self _ _, by simpa using h0⟩
              · exact ⟨rfl, a1, List.mem_cons_of_mem _ (List.mem_cons_self _ _),
                  by simpa using h1⟩

/-- C10 (witness): the theorem applied to a concrete element list whose
first match lacks `content` while the second carries one. -/
theorem getMetaImages_spec_witness :
    getMetaImages [{ content := none }, { content := some "http://img/x.jpg" }] = [] :=
  (getMetaImages_spec _).1 _ _ rfl rfl

/-! ## Claim C8 -/

/-- C8: in `preferenceScore` the good-word bonus is evaluated
independently on the address, the class and the title, so a candidate
matching a good word in all three fields accumulates the bonus three
times; the bad-word penalty is applied at most once (its contribution is
either 0 or the single `badWordMatch`), only against the address (it is
unchanged by any class and title), and for data-URI addresses both the
address good-word check and the bad-word check are skipped. -/
theorem preferenceScore_word_bonuses (env : Env) (c : ImageCandidate)
    (hsvg : containsSubL c.src.toList "data:image".toList = false)
    (h1 : goodWordHit c.src = true) (h2 : goodWordHit c.cssClass = true)
    (h3 : goodWordHit c.title = true) :
    (preferenceScore env c).goodWords = 3 * SCORE_CONFIG.goodWordMatch
    ∧ (∀ d : ImageCandidate, (preferenceScore env d).badWords = 0
        ∨ (preferenceScore env d).badWords = SCORE_CONFIG.badWordMatch)
    ∧ (∀ (d : ImageCandidate) (cls ttl : String),
        (preferenceScore env { d with cssClass := cls, title := ttl }).badWords
          = (preferenceScore env d).badWords)
    ∧ (∀ d : ImageCandidate, containsSubL d.src.toList "data:image".toList = true →
        (preferenceScore env d).badWords = 0
        ∧ (preferenceScore env d).goodWords
            = checkGoodWords d.cssClass + checkGoodWords d.title) := by
  have hhit : ∀ t : String, goodWordHit t = true → t ≠ "" := by
    intro t ht he
    rw [he] at ht
    exact absurd ht (by decide)
  refine ⟨?_, ?_, ?_, ?_⟩
  · simp only [preferenceScore, hsvg]
    rw [if_pos trivial, checkGoodWords, if_neg (hhit _ h1), if_pos h1,
      checkGoodWords, if_neg (hhit _ h2), if_pos h2,
      checkGoodWords, if_neg (hhit _ h3), if_pos h3]
    norm_num [SCORE_CONFIG]
  · intro d
    simp only [preferenceScore]
    split
    · rw [checkBadWords]
      split
      · right; rfl
      · left; rfl
    · left; rfl
  · intro d cls ttl
    simp only [preferenceScore]
  · intro d hd
    simp only [preferenceScore, hd]
    constructor
    · rw [if_neg (by simp)]
    · rw [if_neg (by simp)]
      ring

/-- C8 (witness): the theorem applied to a candidate whose address,
class and title each contain a configured good word. -/
theorem preferenceScore_word_bonuses_witness :
    (preferenceScore envNull
      { src := "http://a.a/logo.jpg", cssClass := "main-block", title := "Logo",
        query := "q" } : ScoreParts).goodWords = 3 * SCORE_CONFIG.goodWordMatch :=
  (preferenceScore_word_bonuses envNull _ (by decide) (by decide) (by decide) (by decide)).1

/-! ## Helper lemmas: the two de-duplication passes -/

theorem map_src_upsertSrc (m : List ImageCandidate) (x : ImageCandidate) :
    (upsertSrc m x).map (fun c => c.src) =
      if x.src ∈ m.map (fun c => c.src) then m.map (fun c => c.src)
      else m.map (fun c => c.src) ++ [x.src] := by
  induction m with
  | nil => simp [upsertSrc]
  | cons a t ih =>
    simp only [upsertSrc]
    by_cases h : a.src = x.src
    · rw [if_pos h]
      simp [h]
    · rw [if_neg h]
      simp only [List.map_cons, ih, List.mem_cons]
      by_cases hm : x.src ∈ t.map fun c => c.src
      · rw [if_pos hm, if_pos (Or.inr hm)]
      · rw [if_neg hm, if_neg (by rintro (h' | h') <;> [exact h h'.symm; exact hm h'])]
        simp

theorem nodup_src_upsertSrc {m : List ImageCandidate} (x : ImageCandidate)
    (h : (m.map fun c => c.src).Nodup) :
    ((upsertSrc m x).map fun c => c.src).Nodup := by
  rw [map_src_upsertSrc]
  split
  · exact h
  · rename_i hnm
    rw [← List.concat_eq_append]
    exact List.Nodup.concat hnm h

theorem mem_upsertSrc {m : List ImageCandidate} {x c : ImageCandidate}
    (hnd : (m.map fun c => c.src).Nodup) :
    c ∈ upsertSrc m x ↔ c = x ∨ (c ∈ m ∧ c.src ≠ x.src) := by
  induction m with
  | nil => simp [upsertSrc]
  | cons a t ih =>
    simp only [List.map_cons, List.nodup_cons, List.mem_map] at hnd
    obtain ⟨hna, hnt⟩ := hnd
    simp only [upsertSrc]
    by_cases h : a.src = x.src
    · rw [if_pos h]
      simp only [List.mem_cons]
      constructor
      · rintro (rfl | hct)
        · exact Or.inl rfl
        · refine Or.inr ⟨Or.inr hct, ?_⟩
          intro hcs
          exact hna ⟨c, hct, by rw [hcs, h]⟩
      · rintro (rfl | ⟨(rfl | hct), hne⟩)
        · exact Or.inl rfl
        · exact absurd h hne
        · exact Or.inr hct
    · rw [if_neg h]
      simp only [List.mem_cons, ih hnt]
      constructor
      · rintro (rfl | rfl | ⟨hct, hne⟩)
        · exact Or.inr ⟨Or.inl rfl, fun hcs => h hcs⟩
        · exact Or.inl rfl
        · exact Or.inr ⟨Or.inr hct, hne⟩
      · rintro (rfl | ⟨(rfl | hct), hne⟩)
        · exact Or.inr (Or.inl rfl)
        · exact Or.inl rfl
        · exact Or.inr (Or.inr ⟨hct, hne⟩)

theorem mem_src_foldl_upsert :
    ∀ (l acc : List ImageCandidate) (s : String),
      s ∈ (l.foldl upsertSrc acc).map (fun c => c.src) ↔
        s ∈ acc.map (fun c => c.src) ∨ s ∈ l.map (fun c => c.src) := by
  intro l
  induction l with
  | nil => simp
  | cons x t ih =>
    intro acc s
    simp only [List.foldl_cons, ih, map_src_upsertSrc, List.map_cons, List.mem_cons]
    split
    · rename_i hmem
      constructor
      · rintro (h | h)
        · exact Or.inl h
        · exact Or.inr (Or.inr h)
      · rintro (h | rfl | h)
        · exact Or.inl h
        · exact Or.inl hmem
        · exact Or.inr h
    · simp only [List.mem_append, List.mem_singleton]
      tauto

theorem nodup_src_foldl_upsert :
    ∀ (l acc : List ImageCandidate), (acc.map fun c => c.src).Nodup →
      ((l.foldl upsertSrc acc).map fun c => c.src).Nodup := by
  intro l
  induction l with
  | nil => intro acc h; simpa using h
  | cons x t ih =>
    intro acc h
    exact ih _ (nodup_src_upsertSrc x h)

theorem getLast?_cons_of_ne_nil {α : Type} (a : α) {l : List α} (h : l ≠ []) :
    (a :: l).getLast? = l.getLast? := by
  cases l with
  | nil => exact absurd rfl h
  | cons b t => rfl

theorem dedupe_retained_go :
    ∀ (l acc : List ImageCandidate), (acc.map fun c => c.src).Nodup →
      ∀ c ∈ l.foldl upsertSrc acc,
        ((l.filter fun d => d.src == c.src).getLast? = some c
          ∧ (l.filter fun d => d.src == c.src) ≠ [])
        ∨ ((l.filter fun d => d.src == c.src) = [] ∧ c ∈ acc) := by
  intro l
  induction l with
  | nil =>
    intro acc _ c hc
    exact Or.inr ⟨rfl, hc⟩
  | cons x t ih =>
    intro acc hnd c hc
    rw [List.foldl_cons] at hc
    rcases ih (upsertSrc acc x) (nodup_src_upsertSrc x hnd) c hc with ⟨hlast, hne⟩ | ⟨hnil, hmem⟩
    · left
      rw [List.filter_cons]
      split
      · exact ⟨by rw [getLast?_cons_of_ne_nil _ hne]; exact hlast, by simp⟩
      · exact ⟨hlast, hne⟩
    · rcases (mem_upsertSrc hnd).mp hmem with rfl | ⟨hacc, hne⟩
      · left
        rw [List.filter_cons, if_pos (by simp), hnil]
        exact ⟨rfl, by simp⟩
      · right
        rw [List.filter_cons, if_neg (by simp; exact fun h => hne h.symm), hnil]
        exact ⟨rfl, hacc⟩

/-- Everything `deDupeImageArray` keeps: unique srcs, the same src set as
the input, and for each kept candidate the LAST input occurrence of its
src. -/
theorem deDupeImageArray_spec (arr : List ImageCandidate) :
    ((deDupeImageArray arr).map fun c => c.src).Nodup
    ∧ (∀ s, s ∈ (deDupeImageArray arr).map (fun c => c.src) ↔ s ∈ arr.map fun c => c.src)
    ∧ ∀ c ∈ deDupeImageArray arr, (arr.filter fun d => d.src == c.src).getLast? = some c := by
  refine ⟨nodup_src_foldl_upsert arr [] (by simp), ?_, ?_⟩
  · intro s
    rw [deDupeImageArray, mem_src_foldl_upsert]
    simp
  · intro c hc
    rcases dedupe_retained_go arr [] (by simp) c hc with ⟨hlast, _⟩ | ⟨_, hmem⟩
    · exact hlast
    · exact absurd hmem (List.not_mem_nil c)

theorem flatten_go_append (title query : String) :
    ∀ (imgs : List RawImg) (seen : List String) (out : List ImageCandidate),
      (imgs.foldl
        (fun (st : List String × List ImageCandidate) o =>
          if st.1.contains o.attribs.src then st
          else (o.attribs.src :: st.1, st.2 ++ [flattenOne title query o]))
        (seen, out)).2
      = out ++ (imgs.foldl
        (fun (st : List String × List ImageCandidate) o =>
          if st.1.contains o.attribs.src then st
          else (o.attribs.src :: st.1, st.2 ++ [flattenOne title query o]))
        (seen, [])).2 := by
  intro imgs
  induction imgs with
  | nil => intro seen out; simp
  | cons x t ih =>
    intro seen out
    simp only [List.foldl_cons]
    by_cases h : seen.contains x.attribs.src
    · rw [if_pos h, if_pos h]
      exact ih seen out
    · rw [if_neg h, if_neg h]
      rw [ih _ (out ++ [flattenOne title query x]),
        ih _ ([] ++ [flattenOne title query x])]
      simp

theorem flatten_go_spec (title query : String) :
    ∀ (imgs : List RawImg) (seen : List String),
      ∀ c ∈ (imgs.foldl
        (fun (st : List String × List ImageCandidate) o =>
          if st.1.contains o.attribs.src then st
          else (o.attribs.src :: st.1, st.2 ++ [flattenOne title query o]))
        (seen, [])).2,
        seen.contains c.src = false
        ∧ ∃ o, (imgs.filter fun d => d.attribs.src == c.src).head? = some o
            ∧ c = flattenOne title query o := by
  intro imgs
  induction imgs with
  | nil =>
    intro seen c hc
    simp at hc
  | cons x t ih =>
    intro seen c hc
    rw [List.foldl_cons] at hc
    by_cases h : seen.contains x.attribs.src
    · rw [if_pos h] at hc
      obtain ⟨hnotin, o, hhead, hco⟩ := ih seen c hc
      refine ⟨hnotin, o, ?_, hco⟩
      rw [List.filter_cons, if_neg ?_]
      · exact hhead
      · intro hbeq
        have heq : x.attribs.src = c.src := by simpa using hbeq
        rw [← heq, h] at hnotin
        simp at hnotin
    · rw [if_neg h] at hc
      rw [flatten_go_append] at hc
      simp only [List.nil_append, List.singleton_append, List.mem_cons] at hc
      rcases hc with rfl | hc
      · have hb : (x.attribs.src == (flattenOne title query x).src) = true := by
          simp [flattenOne]
        refine ⟨by simpa [flattenOne] using h, x, ?_, rfl⟩
        rw [List.filter_cons, if_pos hb]
        simp
      · obtain ⟨hnotin, o, hhead, hco⟩ := ih (x.attribs.src :: seen) c hc
        have hsplit : (c.src == x.attribs.src) = false ∧ seen.contains c.src = false := by
          simpa [List.contains_cons, Bool.or_eq_false_iff] using hnotin
        refine ⟨hsplit.2, o, ?_, hco⟩
        rw [List.filter_cons, if_neg ?_]
        · exact hhead
        · intro hbeq
          have heq : x.attribs.src = c.src := by simpa using hbeq
          rw [heq] at hsplit
          simp at hsplit

theorem flatten_go_nodup (title query : String) :
    ∀ (imgs : List RawImg) (seen : List String),
      (((imgs.foldl
        (fun (st : List String × List ImageCandidate) o =>
          if st.1.contains o.attribs.src then st
          else (o.attribs.src :: st.1, st.2 ++ [flattenOne title query o]))
        (seen, [])).2).map fun c => c.src).Nodup := by
  intro imgs
  induction imgs with
  | nil => intro seen; simp
  | cons x t ih =>
    intro seen
    rw [List.foldl_cons]
    by_cases h : seen.contains x.attribs.src
    · rw [if_pos h]
      exact ih seen
    · rw [if_neg h]
      rw [flatten_go_append]
      simp only [List.nil_append, List.singleton_append, List.map_cons, List.nodup_cons]
      refine ⟨?_, ih _⟩
      intro hmem
      obtain ⟨c, hc, hcs⟩ := List.mem_map.mp hmem
      obtain ⟨hnotin, _⟩ := flatten_go_spec title query t (x.attribs.src :: seen) c hc
      rw [hcs] at hnotin
      simp only [flattenOne, List.contains_cons] at hnotin
      simp at hnotin

theorem flatten_go_mem_src (title query : String) :
    ∀ (imgs : List RawImg) (seen : List String) (s : String),
      s ∈ ((imgs.foldl
        (fun (st : List String × List ImageCandidate) o =>
          if st.1.contains o.attribs.src then st
          else (o.attribs.src :: st.1, st.2 ++ [flattenOne title query o]))
        (seen, [])).2).map (fun c => c.src)
      ↔ (seen.contains s = false ∧ s ∈ imgs.map fun o => o.attribs.src) := by
  intro imgs
  induction imgs with
  | nil => intro seen s; simp
  | cons x t ih =>
    intro seen s
    rw [List.foldl_cons]
    by_cases h : seen.contains x.attribs.src
    · rw [if_pos h, ih]
      simp only [List.map_cons, List.mem_cons]
      constructor
      · rintro ⟨hns, hmem⟩
        exact ⟨hns, Or.inr hmem⟩
      · rintro ⟨hns, rfl | hmem⟩
        · rw [h] at hns
          simp at hns
        · exact ⟨hns, hmem⟩
    · rw [if_neg h]
      rw [flatten_go_append]
      simp only [List.nil_append, List.singleton_append, List.map_cons, List.mem_cons, ih]
      rw [Bool.not_eq_true] at h
      constructor
      · rintro (hs | ⟨hns, hmem⟩)
        · rw [hs]
          refine ⟨by simpa [flattenOne] using h, ?_⟩
          left
          simp [flattenOne]
        · simp only [List.contains_cons, Bool.or_eq_false_iff] at hns
          exact ⟨hns.2, Or.inr hmem⟩
      · rintro ⟨hns, rfl | hmem⟩
        · left
          simp [flattenOne]
        · by_cases hxs : s = x.attribs.src
          · left
            simp [flattenOne, hxs]
          · refine Or.inr ⟨?_, hmem⟩
            simp only [List.contains_cons, Bool.or_eq_false_iff]
            exact ⟨by simpa using hxs, hns⟩

/-! ## Claim C6 -/

/-- C6 (counterexample): `deDupeImageArray` does NOT keep the first-seen
occurrence's attributes for a duplicated `src`: `obj[img.src] = img`
overwrites, so of two candidates sharing a `src` the SECOND one's record
is what survives. -/
theorem deDupeImageArray_keeps_last :
    deDupeImageArray [dupFirst, dupSecond] = [dupSecond] ∧ dupSecond ≠ dupFirst := by
  refine ⟨by decide, by decide⟩

/-- C6 (amended): both de-duplication passes output each distinct `src`
exactly once (no duplicate srcs, and exactly the input's srcs), but they
differ on which occurrence survives: the extractor's pass
(`extractImages`) keeps the first-seen occurrence with its attributes,
while the orchestrator's `deDupeImageArray` retains the LAST-seen
occurrence for a duplicated `src`. -/
theorem dedupPasses_spec :
    (∀ arr : List ImageCandidate,
      ((deDupeImageArray arr).map fun c => c.src).Nodup
      ∧ (∀ s, s ∈ (deDupeImageArray arr).map (fun c => c.src) ↔ s ∈ arr.map fun c => c.src)
      ∧ ∀ c ∈ deDupeImageArray arr, (arr.filter fun d => d.src == c.src).getLast? = some c)
    ∧ ∀ (title query : String) (imgs : List RawImg),
      ((extractFlatten title query imgs).map fun c => c.src).Nodup
      ∧ (∀ s, s ∈ (extractFlatten title query imgs).map (fun c => c.src)
            ↔ s ∈ imgs.map fun o => o.attribs.src)
      ∧ ∀ c ∈ extractFlatten title query imgs,
          ∃ o, (imgs.filter fun d => d.attribs.src == c.src).head? = some o
            ∧ c = flattenOne title query o := by
  constructor
  · exact deDupeImageArray_spec
  · intro title query imgs
    refine ⟨flatten_go_nodup title query imgs [], ?_, ?_⟩
    · intro s
      rw [extractFlatten, flatten_go_mem_src]
      simp
    · intro c hc
      exact (flatten_go_spec title query imgs [] c hc).2

/-- C6 (witness): the amended theorem applied to the concrete duplicated
pair: `deDupeImageArray` retains the last occurrence, and the
extractor's pass retains the first. -/
theorem dedupPasses_spec_witness :
    ([dupFirst, dupSecond].filter fun d => d.src == dupSecond.src).getLast? = some dupSecond :=
  (dedupPasses_spec.1 [dupFirst, dupSecond]).2.2 dupSecond (by decide)
